import Mathlib

/-
Verification of the transferase core: the genome-position index, the
interval-to-site query translator, the methylome store and the levels
aggregation engine.  The Python-visible core (GenomeIndex, Methylome,
make_query, get_levels, ...) is a native extension; its behaviour is
modelled here from the specification.  The pure-Python helper
generate_bins is translated directly from src/python/transferase_utils.py.
-/

namespace Transferase

/-- Modelled from the spec: the error taxonomy of §7 (the native error kinds
NotFoundError, CorruptIndexError, InvalidMethylomeDataError,
ChromosomeNotFoundError, SizeMismatchError are not in the Python sources). -/
inductive XfrError where
  | notFound
  | corruptIndex
  | invalidMethylomeData
  | chromosomeNotFound
  | sizeMismatch
deriving DecidableEq, Repr

/-- Modelled from the spec: the message carried by each error kind, as pinned
by the tests (RuntimeError match strings). -/
def XfrError.message : XfrError → String
  | XfrError.notFound => "not found"
  | XfrError.corruptIndex => "corrupted index data"
  | XfrError.invalidMethylomeData => "invalid methylome data"
  | XfrError.chromosomeNotFound => "chrom name not found in index"
  | XfrError.sizeMismatch => "methylome sizes differ"

/-- Modelled from the spec: one chromosome of a GenomeIndex — its name, its
size in bases, and the ordered list of CpG-site positions
(GenomeIndexMetadata plus GenomeIndexData for this chromosome). -/
structure Chrom where
  name : String
  size : Nat
  positions : List Nat
deriving DecidableEq, Repr

/-- Modelled from the spec: a GenomeIndex is the per-chromosome CpG catalogue,
chromosomes in index order (chromosome id = position in this list). -/
structure GenomeIndex where
  chroms : List Chrom
deriving DecidableEq, Repr

/-- Modelled from the spec: the total CpG-site count N, the length of the flat
global index space. -/
def totalCpGs (gi : GenomeIndex) : Nat :=
  (gi.chroms.map (fun c => c.positions.length)).sum

/-- Boolean check that a position list is strictly increasing. -/
def strictlyIncreasing : List Nat → Bool
  | [] => true
  | [_] => true
  | a :: b :: rest => decide (a < b) && strictlyIncreasing (b :: rest)

/-- Modelled from the spec: structural self-check of a GenomeIndex — every
chromosome's position list strictly increasing. -/
def GenomeIndex.is_consistent (gi : GenomeIndex) : Bool :=
  gi.chroms.all (fun c => strictlyIncreasing c.positions)

/-- Modelled from the spec: resolve a chromosome name to its base global index
(the sum of CpG counts of all prior chromosomes) and its Chrom record;
none when the name is absent from the index. -/
def findChromBase : List Chrom → String → Option (Nat × Chrom)
  | [], _ => none
  | c :: rest, nm =>
      if c.name = nm then some (0, c)
      else
        match findChromBase rest nm with
        | none => none
        | some (b, c2) => some (c.positions.length + b, c2)

/-- Modelled from the spec: a GenomicInterval — chromosome name with a
half-open base range. -/
structure GenomicInterval where
  chrom : String
  start : Nat
  stop : Nat
deriving DecidableEq, Repr

/-- Modelled from the spec: the index of the first position greater than or
equal to x in an ordered position list (the binary-search lower bound). -/
def lowerBound (ps : List Nat) (x : Nat) : Nat :=
  (ps.takeWhile (fun p => decide (p < x))).length

/-- Map a fallible translation over a list, failing on the first error and
otherwise keeping input order. -/
def mapE {α β : Type} (f : α → Except XfrError β) : List α → Except XfrError (List β)
  | [] => Except.ok []
  | a :: rest =>
      match f a with
      | Except.error e => Except.error e
      | Except.ok b =>
          match mapE f rest with
          | Except.error e => Except.error e
          | Except.ok bs => Except.ok (b :: bs)

/-- Modelled from the spec: translate one interval to its global CpG-index
range — lower bounds for start and stop in the chromosome's positions,
offset by the chromosome's base global index; unknown chromosome fails. -/
def queryOne (gi : GenomeIndex) (iv : GenomicInterval) : Except XfrError (Nat × Nat) :=
  match findChromBase gi.chroms iv.chrom with
  | none => Except.error XfrError.chromosomeNotFound
  | some (base, c) =>
      Except.ok (base + lowerBound c.positions iv.start, base + lowerBound c.positions iv.stop)

/-- Modelled from the spec: make_query translates each interval in order. -/
def make_query (gi : GenomeIndex) (ivs : List GenomicInterval) :
    Except XfrError (List (Nat × Nat)) :=
  mapE (queryOne gi) ivs

/-- Modelled from the spec: get_n_cpgs is computed as end minus start over the
same binary-search ranges used by make_query. -/
def get_n_cpgs (gi : GenomeIndex) (ivs : List GenomicInterval) :
    Except XfrError (List Nat) :=
  match make_query gi ivs with
  | Except.error e => Except.error e
  | Except.ok rs => Except.ok (rs.map (fun r => r.2 - r.1))

/-- The number of CpG positions lying inside the half-open base range
[a, b) — the semantic count that get_n_cpgs is meant to report. -/
def countInInterval (ps : List Nat) (a b : Nat) : Nat :=
  (ps.filter (fun p => decide (a ≤ p) && decide (p < b))).length

/-- The scenario chromosome from the spec: chr1 of length 300 with CpG sites
at offsets 10, 50, 120 and 250. -/
def chr1 : Chrom :=
  { name := "chr1", size := 300, positions := [10, 50, 120, 250] }

/-- The scenario GenomeIndex holding only chr1. -/
def scenarioIndex : GenomeIndex :=
  { chroms := [chr1] }

/-- The bin loop of generate_bins (src/python/transferase_utils.py): starting
from start, repeatedly yield the half-open range from start to
min (start + binSize) chromSize and advance start to that stop, while
start is below the chromosome size.  The loop guard also requires a
positive bin size, since the Python loop does not advance otherwise; the
fueled variant binsFromFuel below captures that divergence. -/
def binsFrom (binSize chromSize start : Nat) : List (Nat × Nat) :=
  if h : 0 < binSize ∧ start < chromSize then
    (start, min (start + binSize) chromSize) ::
      binsFrom binSize chromSize (min (start + binSize) chromSize)
  else []
termination_by chromSize - start
decreasing_by
  simp_wf
  omega

/-- The bin loop of generate_bins with an explicit fuel bound: none means the
loop did not finish within the given number of iterations. -/
def binsFromFuel (binSize chromSize : Nat) : Nat → Nat → Option (List (Nat × Nat))
  | _, 0 => none
  | start, fuel + 1 =>
      if start < chromSize then
        match binsFromFuel binSize chromSize (min (start + binSize) chromSize) fuel with
        | none => none
        | some bs => some ((start, min (start + binSize) chromSize) :: bs)
      else some []

/-- The chromosome name and size table that generate_bins extracts from the
genome index metadata, in chromosome-id order. -/
def chromNamesSizes (gi : GenomeIndex) : List (String × Nat) :=
  gi.chroms.map (fun c => (c.name, c.size))

/-- generate_bins (src/python/transferase_utils.py): for each chromosome in
index order, the bins of the given size with the final bin clipped to the
chromosome size, yielded as (chrom, start, stop) triples. -/
def generate_bins (gi : GenomeIndex) (binSize : Nat) : List (String × Nat × Nat) :=
  (chromNamesSizes gi).flatMap
    (fun p => (binsFrom binSize p.2 0).map (fun r => (p.1, r.1, r.2)))

/-- Modelled from the spec: a Methylome Store — a flat ordered sequence of
(methylated_count, total_count) pairs over the global CpG index space. -/
structure Methylome where
  sites : List (Nat × Nat)
deriving DecidableEq, Repr

/-- Modelled from the spec: structural self-check of a Methylome — each site
has methylated_count at most total_count. -/
def Methylome.is_consistent (m : Methylome) : Bool :=
  m.sites.all (fun p => decide (p.1 ≤ p.2))

/-- Modelled from the spec: the content identity of a GenomeIndex used to
stamp Methylome Stores — the chromosome table with per-chromosome CpG
counts. -/
def GenomeIndex.identity (gi : GenomeIndex) : List (String × Nat × Nat) :=
  gi.chroms.map (fun c => (c.name, c.size, c.positions.length))

/-- Modelled from the spec: the metadata stamp a Methylome Store receives
from init_metadata. -/
structure MethylomeMetadata where
  indexIdentity : List (String × Nat × Nat)
  nSites : Nat
deriving DecidableEq, Repr

/-- Modelled from the spec: init_metadata stamps the store with the Genome
Index's identity and fails with InvalidMethylomeDataError when the store's
site count does not match the index's total CpG-site count. -/
def init_metadata (m : Methylome) (gi : GenomeIndex) :
    Except XfrError MethylomeMetadata :=
  if m.sites.length = totalCpGs gi then
    Except.ok { indexIdentity := gi.identity, nSites := m.sites.length }
  else Except.error XfrError.invalidMethylomeData

/-- Modelled from the spec: element-wise accumulation of the count pairs of
two sites. -/
def pairAdd (x y : Nat × Nat) : Nat × Nat :=
  (x.1 + y.1, x.2 + y.2)

/-- Modelled from the spec: add merges two Methylome Stores of identical
length element-wise and fails with SizeMismatchError otherwise. -/
def Methylome.add (a b : Methylome) : Except XfrError Methylome :=
  if a.sites.length = b.sites.length then
    Except.ok { sites := List.zipWith pairAdd a.sites b.sites }
  else Except.error XfrError.sizeMismatch

/-- Modelled from the spec: global_levels sums methylated and total counts
across all sites of a store. -/
def global_levels (m : Methylome) : Nat × Nat :=
  ((m.sites.map Prod.fst).sum, (m.sites.map Prod.snd).sum)

/-- Modelled from the spec: the levels of one store over one global CpG-index
range — methylated and total counts summed over the sites in the range. -/
def levelsOne (m : Methylome) (r : Nat × Nat) : Nat × Nat :=
  ((((m.sites.drop r.1).take (r.2 - r.1)).map Prod.fst).sum,
   (((m.sites.drop r.1).take (r.2 - r.1)).map Prod.snd).sum)

/-- Modelled from the spec: the levels aggregation — a matrix with one row
per query range (in order) and one column per store (in order). -/
def get_levels (q : List (Nat × Nat)) (stores : List Methylome) :
    List (List (Nat × Nat)) :=
  q.map (fun r => stores.map (fun m => levelsOne m r))

/-- Modelled from the spec: a client backend — either local-filesystem or
remote-server methylome storage, each a name-to-store table. -/
inductive Backend where
  | localDir (table : List (String × Methylome))
  | remoteServer (table : List (String × Methylome))
deriving DecidableEq

/-- The name-to-store table of a backend. -/
def Backend.table : Backend → List (String × Methylome)
  | Backend.localDir t => t
  | Backend.remoteServer t => t

/-- Look a methylome up by name in a backend table. -/
def lookupStore : List (String × Methylome) → String → Option Methylome
  | [], _ => none
  | (nm, m) :: rest, x => if nm = x then some m else lookupStore rest x

/-- Modelled from the spec: resolve the requested methylome names against a
backend, in order, failing with NotFoundError on a missing name. -/
def resolveStores (b : Backend) (names : List String) : Except XfrError (List Methylome) :=
  mapE
    (fun nm =>
      match lookupStore b.table nm with
      | none => Except.error XfrError.notFound
      | some m => Except.ok m)
    names

/-- Modelled from the spec: the client facade — translate the intervals with
make_query, resolve the named stores on the chosen backend, and aggregate
levels; the pipeline is the same for both backends. -/
def client_get_levels (b : Backend) (gi : GenomeIndex) (names : List String)
    (ivs : List GenomicInterval) : Except XfrError (List (List (Nat × Nat))) :=
  match make_query gi ivs with
  | Except.error e => Except.error e
  | Except.ok q =>
      match resolveStores b names with
      | Except.error e => Except.error e
      | Except.ok stores => Except.ok (get_levels q stores)

/-- Modelled from the spec: the persisted form of a GenomeIndex — a metadata
file holding the chromosome table with site counts, and a data file
holding the flat concatenated position array. -/
structure IndexFiles where
  chromTable : List (String × Nat × Nat)
  data : List Nat
deriving DecidableEq, Repr

/-- Modelled from the spec: write a GenomeIndex as metadata plus flat data. -/
def GenomeIndex.write (gi : GenomeIndex) : IndexFiles :=
  { chromTable := gi.chroms.map (fun c => (c.name, c.size, c.positions.length)),
    data := gi.chroms.flatMap (fun c => c.positions) }

/-- Split a flat position array back into per-chromosome lists following the
site counts of the metadata table; none on a length mismatch. -/
def splitSites : List (String × Nat × Nat) → List Nat → Option (List Chrom)
  | [], [] => some []
  | [], _ :: _ => none
  | e :: rest, data =>
      if e.2.2 ≤ data.length then
        match splitSites rest (data.drop e.2.2) with
        | none => none
        | some cs =>
            some ({ name := e.1, size := e.2.1, positions := data.take e.2.2 } :: cs)
      else none

/-- Modelled from the spec: read a GenomeIndex back from its persisted form,
failing with CorruptIndexError when the data fails structural invariants
(length mismatch with the metadata, or non-increasing positions). -/
def GenomeIndex.read (f : IndexFiles) : Except XfrError GenomeIndex :=
  match splitSites f.chromTable f.data with
  | none => Except.error XfrError.corruptIndex
  | some cs =>
      if GenomeIndex.is_consistent { chroms := cs } then Except.ok { chroms := cs }
      else Except.error XfrError.corruptIndex

/-- Modelled from the spec: the persisted form of a Methylome — a metadata
file holding the record count and a data file holding the interleaved
count pairs. -/
structure MethFiles where
  nSites : Nat
  data : List Nat
deriving DecidableEq, Repr

/-- Modelled from the spec: write a Methylome as its record count plus the
interleaved flat array of count pairs. -/
def Methylome.write (m : Methylome) : MethFiles :=
  { nSites := m.sites.length, data := m.sites.flatMap (fun p => [p.1, p.2]) }

/-- Re-pair an interleaved flat count array; none on odd length. -/
def pairUp : List Nat → Option (List (Nat × Nat))
  | [] => some []
  | [_] => none
  | a :: b :: rest =>
      match pairUp rest with
      | none => none
      | some ps => some ((a, b) :: ps)

/-- Modelled from the spec: read a Methylome back from its persisted form,
failing with InvalidMethylomeDataError when the data array does not parse
or its record count disagrees with the metadata. -/
def Methylome.read (f : MethFiles) : Except XfrError Methylome :=
  match pairUp f.data with
  | none => Except.error XfrError.invalidMethylomeData
  | some ps =>
      if ps.length = f.nSites then Except.ok { sites := ps }
      else Except.error XfrError.invalidMethylomeData

/-- Modelled from the spec: the weighted mean methylation of one result cell —
the quotient of methylated by total counts when total_count reaches
min_reads, and the undefined sentinel (none) otherwise. -/
def wmean (minReads : Nat) (cell : Nat × Nat) : Option ℚ :=
  if minReads ≤ cell.2 then some ((cell.1 : ℚ) / (cell.2 : ℚ)) else none

/-- Modelled from the spec: all_wmeans reports the weighted mean of every
cell of a levels result. -/
def all_wmeans (minReads : Nat) (cells : List (Nat × Nat)) : List (Option ℚ) :=
  cells.map (wmean minReads)

/-- Whether the weighted-mean formula requests a quotient with a zero divisor
on some cell: the quotient branch is taken (total_count at least
min_reads) while total_count is zero. -/
def divisionByZeroRequested (minReads : Nat) (cells : List (Nat × Nat)) : Bool :=
  cells.any (fun cell => decide (minReads ≤ cell.2) && decide (cell.2 = 0))

/-- What it means for i to be the index of the first position greater than or
equal to x in ps: every earlier entry is below x and the entry at i, when
it exists, is at least x. -/
def IsFirstGE (ps : List Nat) (x i : Nat) : Prop :=
  i ≤ ps.length
  ∧ (∀ j p, j < i → ps[j]? = some p → p < x)
  ∧ (∀ p, ps[i]? = some p → x ≤ p)

/-- A three-site methylome, shorter than the scenario index's four CpGs. -/
def meth3 : Methylome :=
  { sites := [(1, 2), (0, 0), (3, 3)] }

/-- A four-site methylome, matching the scenario index's four CpGs. -/
def meth4 : Methylome :=
  { sites := [(1, 2), (0, 0), (3, 3), (2, 5)] }

/-- Another four-site methylome used to exercise add and get_levels. -/
def meth4b : Methylome :=
  { sites := [(0, 1), (2, 2), (1, 4), (0, 0)] }

/- Theorems.  Each claim is settled by exactly one theorem below; helper
lemmas are shared. -/

/-- The lower bound never exceeds the list length. -/
theorem lowerBound_le_length (ps : List Nat) (x : Nat) : lowerBound ps x ≤ ps.length := by
  induction ps with
  | nil => simp [lowerBound]
  | cons p rest ih =>
      by_cases hp : p < x
      · simp only [lowerBound, List.takeWhile_cons] at ih ⊢
        simp [hp]
        omega
      · simp [lowerBound, List.takeWhile_cons, hp]

/-- Unfolding lowerBound at a head the predicate accepts. -/
theorem lowerBound_cons_pos (p : Nat) (rest : List Nat) (x : Nat) (hp : p < x) :
    lowerBound (p :: rest) x = lowerBound rest x + 1 := by
  simp [lowerBound, List.takeWhile_cons, hp]

/-- Unfolding lowerBound at a head the predicate rejects. -/
theorem lowerBound_cons_neg (p : Nat) (rest : List Nat) (x : Nat) (hp : ¬ p < x) :
    lowerBound (p :: rest) x = 0 := by
  simp [lowerBound, List.takeWhile_cons, hp]

/-- lowerBound computes the index of the first entry at least x. -/
theorem lowerBound_isFirstGE (ps : List Nat) (x : Nat) :
    IsFirstGE ps x (lowerBound ps x) := by
  induction ps with
  | nil =>
      refine ⟨by simp [lowerBound], ?_, ?_⟩
      · intro j p hj hp
        simp at hp
      · intro p hp
        simp at hp
  | cons p rest ih =>
      obtain ⟨ih1, ih2, ih3⟩ := ih
      by_cases hp : p < x
      · rw [lowerBound_cons_pos p rest x hp]
        refine ⟨by simp; omega, ?_, ?_⟩
        · intro j q hj hq
          cases j with
          | zero =>
              simp at hq
              omega
          | succ j =>
              simp at hq
              exact ih2 j q (by omega) hq
        · intro q hq
          simp at hq
          exact ih3 q hq
      · rw [lowerBound_cons_neg p rest x hp]
        refine ⟨by simp, ?_, ?_⟩
        · intro j q hj hq
          omega
        · intro q hq
          simp at hq
          omega

/-- Claim C1: make_query translates an interval over a known chromosome to
the half-open global CpG-index range obtained from the first-position-at-
least-start and first-position-at-least-stop indexes, offset by the
chromosome's base global index; on the scenario index (chr1 of length 300,
CpGs at 10, 50, 120, 250) the interval (chr1, 100, 200) maps to the range
(2, 3) and get_n_cpgs reports 1. -/
theorem make_query_interval_translation (gi : GenomeIndex) (iv : GenomicInterval)
    (base : Nat) (c : Chrom)
    (h : findChromBase gi.chroms iv.chrom = some (base, c)) :
    make_query gi [iv]
      = Except.ok [(base + lowerBound c.positions iv.start,
                    base + lowerBound c.positions iv.stop)]
    ∧ IsFirstGE c.positions iv.start (lowerBound c.positions iv.start)
    ∧ IsFirstGE c.positions iv.stop (lowerBound c.positions iv.stop)
    ∧ make_query scenarioIndex [{ chrom := "chr1", start := 100, stop := 200 }]
        = Except.ok [(2, 3)]
    ∧ get_n_cpgs scenarioIndex [{ chrom := "chr1", start := 100, stop := 200 }]
        = Except.ok [1] := by
  refine ⟨?_, lowerBound_isFirstGE c.positions iv.start,
    lowerBound_isFirstGE c.positions iv.stop, by rfl, by rfl⟩
  simp [make_query, mapE, queryOne, h]

/-- Witness for C1 at the scenario input. -/
theorem make_query_interval_translation_witness :
    make_query scenarioIndex [{ chrom := "chr1", start := 100, stop := 200 }]
      = Except.ok [(0 + lowerBound chr1.positions 100, 0 + lowerBound chr1.positions 200)]
    ∧ IsFirstGE chr1.positions 100 (lowerBound chr1.positions 100)
    ∧ IsFirstGE chr1.positions 200 (lowerBound chr1.positions 200)
    ∧ make_query scenarioIndex [{ chrom := "chr1", start := 100, stop := 200 }]
        = Except.ok [(2, 3)]
    ∧ get_n_cpgs scenarioIndex [{ chrom := "chr1", start := 100, stop := 200 }]
        = Except.ok [1] :=
  make_query_interval_translation scenarioIndex
    { chrom := "chr1", start := 100, stop := 200 } 0 chr1 rfl

/-- queryOne can only fail with the unknown-chromosome error. -/
theorem queryOne_err (gi : GenomeIndex) (iv : GenomicInterval) (e : XfrError)
    (h : queryOne gi iv = Except.error e) : e = XfrError.chromosomeNotFound := by
  unfold queryOne at h
  cases hf : findChromBase gi.chroms iv.chrom with
  | none =>
      rw [hf] at h
      simp at h
      exact h.symm
  | some bc =>
      rw [hf] at h
      simp at h

/-- make_query fails with the unknown-chromosome error whenever some interval
names a chromosome absent from the index. -/
theorem make_query_unknown (gi : GenomeIndex) :
    ∀ (ivs : List GenomicInterval) (iv : GenomicInterval), iv ∈ ivs →
      findChromBase gi.chroms iv.chrom = none →
      make_query gi ivs = Except.error XfrError.chromosomeNotFound := by
  intro ivs
  induction ivs with
  | nil =>
      intro iv h
      cases h
  | cons a rest ih =>
      intro iv hmem hnone
      unfold make_query mapE
      cases hq : queryOne gi a with
      | error e =>
          have he := queryOne_err gi a e hq
          subst he
          rfl
      | ok b =>
          rcases List.mem_cons.mp hmem with heq | hmem2
          · exfalso
            subst heq
            unfold queryOne at hq
            rw [hnone] at hq
            simp at hq
          · have hrest := ih iv hmem2 hnone
            unfold make_query at hrest
            rw [hrest]

/-- Claim C4: an interval set naming a chromosome absent from the index makes
the query fail with the chromosome-not-found error, whose message is
"chrom name not found in index". -/
theorem unknown_chrom_query_fails (gi : GenomeIndex) (ivs : List GenomicInterval)
    (iv : GenomicInterval) (hmem : iv ∈ ivs)
    (hnone : findChromBase gi.chroms iv.chrom = none) :
    make_query gi ivs = Except.error XfrError.chromosomeNotFound
    ∧ XfrError.message XfrError.chromosomeNotFound = "chrom name not found in index" :=
  ⟨make_query_unknown gi ivs iv hmem hnone, rfl⟩

/-- Witness for C4: the interval file's chrX against a default-constructed
empty index. -/
theorem unknown_chrom_query_fails_witness :
    make_query { chroms := [] } [{ chrom := "chrX", start := 0, stop := 10 }]
      = Except.error XfrError.chromosomeNotFound
    ∧ XfrError.message XfrError.chromosomeNotFound = "chrom name not found in index" :=
  unknown_chrom_query_fails { chroms := [] }
    [{ chrom := "chrX", start := 0, stop := 10 }]
    { chrom := "chrX", start := 0, stop := 10 } (by simp) rfl

/-- Claim C5: init_metadata fails with the invalid-methylome-data error
exactly when the store's site count differs from the index's total CpG
count, and succeeds otherwise, stamping the store with the index
identity. -/
theorem init_metadata_site_count_check (m : Methylome) (gi : GenomeIndex) :
    (init_metadata m gi = Except.error XfrError.invalidMethylomeData
      ↔ m.sites.length ≠ totalCpGs gi)
    ∧ (m.sites.length = totalCpGs gi →
        init_metadata m gi
          = Except.ok { indexIdentity := gi.identity, nSites := m.sites.length })
    ∧ XfrError.message XfrError.invalidMethylomeData = "invalid methylome data" := by
  by_cases h : m.sites.length = totalCpGs gi <;>
    simp [init_metadata, h, XfrError.message]

/-- Witness for C5: a three-site methylome fails against the four-CpG
scenario index, a four-site methylome succeeds. -/
theorem init_metadata_site_count_check_witness :
    init_metadata meth3 scenarioIndex = Except.error XfrError.invalidMethylomeData
    ∧ init_metadata meth4 scenarioIndex
        = Except.ok { indexIdentity := scenarioIndex.identity, nSites := meth4.sites.length } :=
  ⟨(init_metadata_site_count_check meth3 scenarioIndex).1.mpr (by decide),
   (init_metadata_site_count_check meth4 scenarioIndex).2.1 (by decide)⟩

/-- lowerBound is monotone in the threshold. -/
theorem lowerBound_mono (ps : List Nat) (a b : Nat) (h : a ≤ b) :
    lowerBound ps a ≤ lowerBound ps b := by
  induction ps with
  | nil => simp [lowerBound]
  | cons p rest ih =>
      by_cases hp : p < a
      · rw [lowerBound_cons_pos p rest a hp,
          lowerBound_cons_pos p rest b (Nat.lt_of_lt_of_le hp h)]
        omega
      · rw [lowerBound_cons_neg p rest a hp]
        omega

/-- lowerBound is zero when every entry is at least the threshold. -/
theorem lowerBound_eq_zero (ps : List Nat) (a : Nat) (h : ∀ q ∈ ps, a ≤ q) :
    lowerBound ps a = 0 := by
  cases ps with
  | nil => simp [lowerBound]
  | cons p rest =>
      have := h p (by simp)
      exact lowerBound_cons_neg p rest a (by omega)

/-- The in-interval count vanishes when every entry is at least the stop. -/
theorem countInInterval_eq_zero_ge (ps : List Nat) (a b : Nat)
    (h : ∀ q ∈ ps, b ≤ q) : countInInterval ps a b = 0 := by
  induction ps with
  | nil => simp [countInInterval]
  | cons p rest ih =>
      have hp := h p (by simp)
      simp only [countInInterval, List.filter_cons]
      have : (decide (a ≤ p) && decide (p < b)) = false := by
        simp
        omega
      rw [this]
      simp only [if_neg (by simp : ¬ false = true)]
      exact ih (fun q hq => h q (by simp [hq]))

/-- The in-interval count vanishes on an empty base range. -/
theorem countInInterval_eq_zero_le (ps : List Nat) (a b : Nat) (h : b ≤ a) :
    countInInterval ps a b = 0 := by
  induction ps with
  | nil => simp [countInInterval]
  | cons p rest ih =>
      simp only [countInInterval, List.filter_cons]
      have : (decide (a ≤ p) && decide (p < b)) = false := by
        simp
        omega
      rw [this]
      simp only [if_neg (by simp : ¬ false = true)]
      exact ih

/-- On a strictly increasing list, the lower bound at the stop splits as the
lower bound at the start plus the count of entries inside the range. -/
theorem lowerBound_add_count (ps : List Nat) (a b : Nat) (hab : a ≤ b)
    (hs : List.Pairwise (fun x y => x < y) ps) :
    lowerBound ps b = lowerBound ps a + countInInterval ps a b := by
  induction ps with
  | nil => simp [lowerBound, countInInterval]
  | cons p rest ih =>
      rw [List.pairwise_cons] at hs
      obtain ⟨hall, hrest⟩ := hs
      by_cases h1 : p < a
      · rw [lowerBound_cons_pos p rest a h1,
          lowerBound_cons_pos p rest b (Nat.lt_of_lt_of_le h1 hab)]
        have hcnt : countInInterval (p :: rest) a b = countInInterval rest a b := by
          simp only [countInInterval, List.filter_cons]
          have : (decide (a ≤ p) && decide (p < b)) = false := by
            simp
            omega
          rw [this]
          simp only [if_neg (by simp : ¬ false = true)]
        rw [hcnt, ih hrest]
        omega
      · by_cases h2 : p < b
        · rw [lowerBound_cons_pos p rest b h2, lowerBound_cons_neg p rest a h1]
          have hz : lowerBound rest a = 0 :=
            lowerBound_eq_zero rest a (fun q hq => by have := hall q hq; omega)
          have hcnt : countInInterval (p :: rest) a b = countInInterval rest a b + 1 := by
            simp only [countInInterval, List.filter_cons]
            have : (decide (a ≤ p) && decide (p < b)) = true := by
              simp
              omega
            rw [this]
            simp only [if_pos rfl]
            simp [Nat.add_comm]
          rw [hcnt, ih hrest]
          omega
        · rw [lowerBound_cons_neg p rest a h1, lowerBound_cons_neg p rest b h2]
          have hcnt : countInInterval (p :: rest) a b = 0 := by
            refine countInInterval_eq_zero_ge (p :: rest) a b (fun q hq => ?_)
            rcases List.mem_cons.mp hq with rfl | hq2
            · omega
            · have := hall q hq2
              omega
          omega

/-- On a strictly increasing list, the difference of the two lower bounds is
the number of entries inside the half-open base range. -/
theorem lowerBound_sub (ps : List Nat) (a b : Nat)
    (hs : List.Pairwise (fun x y => x < y) ps) :
    lowerBound ps b - lowerBound ps a = countInInterval ps a b := by
  rcases Nat.le_total a b with hab | hba
  · rw [lowerBound_add_count ps a b hab hs]
    omega
  · have h0 := countInInterval_eq_zero_le ps a b hba
    have hm := lowerBound_mono ps b a hba
    omega

/-- Boolean strict increase coincides with the chain of strict inequalities. -/
theorem strictlyIncreasing_iff (l : List Nat) :
    strictlyIncreasing l = true ↔ List.Chain' (fun a b => a < b) l := by
  induction l with
  | nil => simp [strictlyIncreasing]
  | cons a t ih =>
      cases t with
      | nil => simp [strictlyIncreasing]
      | cons b t2 =>
          rw [List.chain'_cons, ← ih]
          simp [strictlyIncreasing]

/-- A consistent index has strictly increasing positions on every chromosome. -/
theorem is_consistent_pairwise (gi : GenomeIndex) (h : gi.is_consistent = true) :
    ∀ c ∈ gi.chroms, List.Pairwise (fun x y => x < y) c.positions := by
  intro c hc
  simp only [GenomeIndex.is_consistent, List.all_eq_true] at h
  exact List.chain'_iff_pairwise.mp ((strictlyIncreasing_iff c.positions).mp (h c hc))

/-- The chromosome returned by findChromBase belongs to the index. -/
theorem findChromBase_mem (chroms : List Chrom) (nm : String) (base : Nat) (c : Chrom)
    (h : findChromBase chroms nm = some (base, c)) : c ∈ chroms := by
  induction chroms generalizing base with
  | nil => simp [findChromBase] at h
  | cons c0 rest ih =>
      unfold findChromBase at h
      by_cases hn : c0.name = nm
      · simp [hn] at h
        simp [h.2.symm]
      · rw [if_neg hn] at h
        cases hr : findChromBase rest nm with
        | none =>
            rw [hr] at h
            simp at h
        | some bc =>
            rw [hr] at h
            simp at h
            rcases bc with ⟨b2, c2⟩
            have : c = c2 := by
              have := h.2
              simp at this
              exact this.symm
            subst this
            exact List.mem_cons_of_mem c0 (ih b2 hr)

/-- A successful mapE has the same length as its input. -/
theorem mapE_ok_length {α β : Type} (f : α → Except XfrError β) :
    ∀ (xs : List α) (ys : List β), mapE f xs = Except.ok ys → ys.length = xs.length := by
  intro xs
  induction xs with
  | nil =>
      intro ys h
      simp [mapE] at h
      simp [h.symm]
  | cons a rest ih =>
      intro ys h
      unfold mapE at h
      cases hf : f a with
      | error e =>
          rw [hf] at h
          simp at h
      | ok b =>
          rw [hf] at h
          cases hr : mapE f rest with
          | error e =>
              rw [hr] at h
              simp at h
          | ok bs =>
              rw [hr] at h
              simp at h
              rw [h.symm]
              simp [ih bs hr]

/-- A successful mapE acts pointwise: each output entry is the successful
image of the input entry at the same index. -/
theorem mapE_ok_get {α β : Type} (f : α → Except XfrError β) :
    ∀ (xs : List α) (ys : List β), mapE f xs = Except.ok ys →
      ∀ (i : Nat) (a : α), xs[i]? = some a →
        ∃ b, ys[i]? = some b ∧ f a = Except.ok b := by
  intro xs
  induction xs with
  | nil =>
      intro ys h i a ha
      simp at ha
  | cons x rest ih =>
      intro ys h i a ha
      unfold mapE at h
      cases hf : f x with
      | error e =>
          rw [hf] at h
          simp at h
      | ok b =>
          rw [hf] at h
          cases hr : mapE f rest with
          | error e =>
              rw [hr] at h
              simp at h
          | ok bs =>
              rw [hr] at h
              simp at h
              subst h
              cases i with
              | zero =>
                  simp at ha
                  subst ha
                  exact ⟨b, by simp, hf⟩
              | succ i =>
                  simp at ha
                  obtain ⟨b2, hb2, hfb2⟩ := ih bs hr i a ha
                  exact ⟨b2, by simpa using hb2, hfb2⟩

/-- Claim C2: on a consistent index, summing the range widths of a successful
make_query equals the total reported by get_n_cpgs on the same intervals;
get_n_cpgs is exactly the per-range width, and each entry is the true
count of CpG positions inside its interval. -/
theorem get_n_cpgs_matches_query_ranges (gi : GenomeIndex) (ivs : List GenomicInterval)
    (q : List (Nat × Nat)) (ns : List Nat)
    (hwf : gi.is_consistent = true)
    (hq : make_query gi ivs = Except.ok q)
    (hn : get_n_cpgs gi ivs = Except.ok ns) :
    (q.map (fun r => r.2 - r.1)).sum = ns.sum
    ∧ ns = q.map (fun r => r.2 - r.1)
    ∧ ∀ (i : Nat) (iv : GenomicInterval), ivs[i]? = some iv →
        ∃ base c, findChromBase gi.chroms iv.chrom = some (base, c)
          ∧ ns[i]? = some (countInInterval c.positions iv.start iv.stop) := by
  unfold get_n_cpgs at hn
  rw [hq] at hn
  simp at hn
  refine ⟨by rw [hn], hn.symm, ?_⟩
  intro i iv hiv
  obtain ⟨r, hri, hrq⟩ := mapE_ok_get (queryOne gi) ivs q hq i iv hiv
  unfold queryOne at hrq
  cases hf : findChromBase gi.chroms iv.chrom with
  | none =>
      rw [hf] at hrq
      simp at hrq
  | some bc =>
      rcases bc with ⟨base, c⟩
      rw [hf] at hrq
      simp at hrq
      refine ⟨base, c, rfl, ?_⟩
      have hpw := is_consistent_pairwise gi hwf c (findChromBase_mem gi.chroms iv.chrom base c hf)
      have hsub := lowerBound_sub c.positions iv.start iv.stop hpw
      rw [← hn]
      simp only [List.getElem?_map, hri, Option.map_some]
      rw [hrq.symm]
      simp
      omega

/-- Witness for C2 on the scenario index with two intervals. -/
theorem get_n_cpgs_matches_query_ranges_witness :
    (([((2 : Nat), (3 : Nat)), (0, 4)].map (fun r => r.2 - r.1)).sum = [(1 : Nat), 4].sum)
    ∧ ([(1 : Nat), 4] = [((2 : Nat), (3 : Nat)), (0, 4)].map (fun r => r.2 - r.1))
    ∧ ∀ (i : Nat) (iv : GenomicInterval),
        [GenomicInterval.mk "chr1" 100 200, GenomicInterval.mk "chr1" 0 300][i]? = some iv →
        ∃ base c, findChromBase scenarioIndex.chroms iv.chrom = some (base, c)
          ∧ [(1 : Nat), 4][i]? = some (countInInterval c.positions iv.start iv.stop) :=
  get_n_cpgs_matches_query_ranges scenarioIndex
    [GenomicInterval.mk "chr1" 100 200, GenomicInterval.mk "chr1" 0 300]
    [(2, 3), (0, 4)] [1, 4] (by decide) rfl rfl

/-- Element-wise accumulation of count pairs is commutative. -/
theorem pairAdd_comm (x y : Nat × Nat) : pairAdd x y = pairAdd y x := by
  simp [pairAdd, Nat.add_comm]

/-- Element-wise accumulation of count pairs is associative along zipWith. -/
theorem zipWith_pairAdd_assoc :
    ∀ (a b c : List (Nat × Nat)),
      List.zipWith pairAdd (List.zipWith pairAdd a b) c
        = List.zipWith pairAdd a (List.zipWith pairAdd b c) := by
  intro a
  induction a with
  | nil =>
      intro b c
      simp
  | cons x a2 ih =>
      intro b c
      cases b with
      | nil => simp
      | cons y b2 =>
          cases c with
          | nil => simp
          | cons z c2 =>
              simp [ih, pairAdd, Nat.add_assoc]

/-- Summing either component of zipped count pairs splits across the two
stores when their lengths agree. -/
theorem sum_zipWith_pairAdd :
    ∀ (a b : List (Nat × Nat)), a.length = b.length →
      ((List.zipWith pairAdd a b).map Prod.fst).sum
          = (a.map Prod.fst).sum + (b.map Prod.fst).sum
      ∧ ((List.zipWith pairAdd a b).map Prod.snd).sum
          = (a.map Prod.snd).sum + (b.map Prod.snd).sum := by
  intro a
  induction a with
  | nil =>
      intro b h
      have : b = [] := List.length_eq_zero.mp h.symm
      subst this
      simp
  | cons x a2 ih =>
      intro b h
      cases b with
      | nil => simp at h
      | cons y b2 =>
          simp at h
          obtain ⟨h1, h2⟩ := ih b2 h
          simp [pairAdd, h1, h2]
          omega

/-- Claim C9: add merges equal-length stores element-wise so that
global_levels of the merge is the element-wise sum; add is commutative and
associative, fails with the size-mismatch error on unequal lengths, and
the empty store has global levels (0, 0). -/
theorem methylome_add_global_levels (a b c : Methylome)
    (hab : a.sites.length = b.sites.length)
    (hbc : b.sites.length = c.sites.length) :
    (∃ ab, Methylome.add a b = Except.ok ab
      ∧ global_levels ab
          = ((global_levels a).1 + (global_levels b).1,
             (global_levels a).2 + (global_levels b).2))
    ∧ Methylome.add a b = Methylome.add b a
    ∧ (Except.bind (Methylome.add a b) (fun ab => Methylome.add ab c)
        = Except.bind (Methylome.add b c) (fun bc => Methylome.add a bc))
    ∧ (∀ d e : Methylome, d.sites.length ≠ e.sites.length →
        Methylome.add d e = Except.error XfrError.sizeMismatch)
    ∧ global_levels { sites := [] } = (0, 0) := by
  refine ⟨?_, ?_, ?_, ?_, rfl⟩
  · refine ⟨{ sites := List.zipWith pairAdd a.sites b.sites }, ?_, ?_⟩
    · simp [Methylome.add, hab]
    · obtain ⟨h1, h2⟩ := sum_zipWith_pairAdd a.sites b.sites hab
      simp [global_levels, h1, h2]
  · by_cases h : a.sites.length = b.sites.length
    · unfold Methylome.add
      rw [if_pos h, if_pos h.symm,
        List.zipWith_comm_of_comm pairAdd pairAdd_comm a.sites b.sites]
    · unfold Methylome.add
      rw [if_neg h,
        if_neg (fun hh : b.sites.length = a.sites.length => h hh.symm)]
  · have h1 : Methylome.add a b = Except.ok { sites := List.zipWith pairAdd a.sites b.sites } := by
      simp [Methylome.add, hab]
    have h2 : Methylome.add b c = Except.ok { sites := List.zipWith pairAdd b.sites c.sites } := by
      simp [Methylome.add, hbc]
    rw [h1, h2]
    simp only [Except.bind]
    have hlen1 : (List.zipWith pairAdd a.sites b.sites).length = a.sites.length := by
      simp [hab]
    have hlen2 : (List.zipWith pairAdd b.sites c.sites).length = b.sites.length := by
      simp [hbc]
    simp [Methylome.add, hlen1, hlen2, hab, hbc, zipWith_pairAdd_assoc]
  · intro d e h
    simp [Methylome.add, h]

/-- Witness for C9 on two concrete four-site methylomes. -/
theorem methylome_add_global_levels_witness :
    (∃ ab, Methylome.add meth4 meth4b = Except.ok ab
      ∧ global_levels ab
          = ((global_levels meth4).1 + (global_levels meth4b).1,
             (global_levels meth4).2 + (global_levels meth4b).2))
    ∧ Methylome.add meth4 meth4b = Methylome.add meth4b meth4
    ∧ (Except.bind (Methylome.add meth4 meth4b) (fun ab => Methylome.add ab meth4)
        = Except.bind (Methylome.add meth4b meth4) (fun bc => Methylome.add meth4 bc))
    ∧ (∀ d e : Methylome, d.sites.length ≠ e.sites.length →
        Methylome.add d e = Except.error XfrError.sizeMismatch)
    ∧ global_levels { sites := [] } = (0, 0) :=
  methylome_add_global_levels meth4 meth4b meth4 (by decide) (by decide)

/-- Reading back the metadata table and flat data of a written index
recovers the chromosome list. -/
theorem splitSites_write (cs : List Chrom) :
    splitSites (cs.map (fun c => (c.name, c.size, c.positions.length)))
      (cs.flatMap (fun c => c.positions)) = some cs := by
  induction cs with
  | nil => rfl
  | cons c rest ih =>
      simp only [List.map_cons, List.flatMap_cons]
      unfold splitSites
      rw [if_pos (by simp)]
      rw [List.drop_left' (by rfl), List.take_left' (by rfl)]
      rw [ih]

/-- Re-pairing the interleaved flat data of a written methylome recovers the
site list. -/
theorem pairUp_write (sites : List (Nat × Nat)) :
    pairUp (sites.flatMap (fun p => [p.1, p.2])) = some sites := by
  induction sites with
  | nil => rfl
  | cons p rest ih =>
      simp only [List.flatMap_cons, List.cons_append, List.nil_append]
      unfold pairUp
      rw [ih]

/-- Claim C8: writing a consistent GenomeIndex or Methylome and reading it
back yields the identical object, on which is_consistent still holds. -/
theorem write_read_round_trip (gi : GenomeIndex) (m : Methylome)
    (hg : gi.is_consistent = true) (hm : m.is_consistent = true) :
    GenomeIndex.read gi.write = Except.ok gi
    ∧ Methylome.read m.write = Except.ok m
    ∧ gi.is_consistent = true
    ∧ m.is_consistent = true := by
  refine ⟨?_, ?_, hg, hm⟩
  · unfold GenomeIndex.read GenomeIndex.write
    rw [splitSites_write gi.chroms]
    simp [hg]
  · unfold Methylome.read Methylome.write
    rw [pairUp_write m.sites]
    simp

/-- Witness for C8 on the scenario index and a four-site methylome. -/
theorem write_read_round_trip_witness :
    GenomeIndex.read scenarioIndex.write = Except.ok scenarioIndex
    ∧ Methylome.read meth4.write = Except.ok meth4
    ∧ scenarioIndex.is_consistent = true
    ∧ meth4.is_consistent = true :=
  write_read_round_trip scenarioIndex meth4 (by decide) (by decide)

/-- Counterexample to claim C6 as stated: with min_reads = 0, a cell with
total_count = 0 satisfies the quotient guard, so the weighted-mean formula
requests a division with a zero divisor. -/
theorem all_wmeans_zero_min_reads_div_by_zero :
    divisionByZeroRequested 0 [(0, 0)] = true
    ∧ all_wmeans 0 [(0, 0)] = [some ((0 : ℚ) / (0 : ℚ))] := by
  constructor
  · rfl
  · simp [all_wmeans, wmean]

/-- Claim C6 (amended to min_reads at least 1): all_wmeans never requests a
division by zero; every cell reaching min_reads coverage yields the
quotient of its counts with a provably nonzero divisor, and every cell
below min_reads yields the undefined sentinel. -/
theorem all_wmeans_safe_pos_min_reads (minReads : Nat) (cells : List (Nat × Nat))
    (h : 1 ≤ minReads) :
    divisionByZeroRequested minReads cells = false
    ∧ all_wmeans minReads cells = cells.map (wmean minReads)
    ∧ ∀ cell ∈ cells,
        (minReads ≤ cell.2 →
          cell.2 ≠ 0 ∧ wmean minReads cell = some ((cell.1 : ℚ) / (cell.2 : ℚ)))
        ∧ (cell.2 < minReads → wmean minReads cell = none) := by
  refine ⟨?_, rfl, ?_⟩
  · simp only [divisionByZeroRequested, List.any_eq_false, Bool.and_eq_true,
      decide_eq_true_eq, not_and]
    intro cell hmem hge
    omega
  · intro cell hmem
    constructor
    · intro hge
      refine ⟨by omega, ?_⟩
      unfold wmean
      rw [if_pos hge]
    · intro hlt
      unfold wmean
      rw [if_neg (by omega)]

/-- Witness for the amended C6 at min_reads 2 with one covered and one
undercovered cell. -/
theorem all_wmeans_safe_pos_min_reads_witness :
    divisionByZeroRequested 2 [(1, 3), (0, 1)] = false
    ∧ all_wmeans 2 [(1, 3), (0, 1)] = [((1 : Nat), (3 : Nat)), (0, 1)].map (wmean 2)
    ∧ ∀ cell ∈ [((1 : Nat), (3 : Nat)), (0, 1)],
        (2 ≤ cell.2 →
          cell.2 ≠ 0 ∧ wmean 2 cell = some ((cell.1 : ℚ) / (cell.2 : ℚ)))
        ∧ (cell.2 < 2 → wmean 2 cell = none) :=
  all_wmeans_safe_pos_min_reads 2 [(1, 3), (0, 1)] (by decide)

/-- Claim C7: a successful client query over m intervals and k methylomes
returns an m-row, k-column matrix whose i-th row is computed from the i-th
interval's range, and the two backends agree on the result. -/
theorem client_levels_shape_and_backend (b : Backend) (gi : GenomeIndex)
    (names : List String) (ivs : List GenomicInterval) (lv : List (List (Nat × Nat)))
    (h : client_get_levels b gi names ivs = Except.ok lv) :
    lv.length = ivs.length
    ∧ (∀ row ∈ lv, row.length = names.length)
    ∧ (∃ q stores, make_query gi ivs = Except.ok q
        ∧ resolveStores b names = Except.ok stores
        ∧ lv = get_levels q stores
        ∧ q.length = ivs.length
        ∧ stores.length = names.length
        ∧ ∀ (i : Nat) (iv : GenomicInterval), ivs[i]? = some iv →
            ∃ r, q[i]? = some r ∧ queryOne gi iv = Except.ok r)
    ∧ (∀ t : List (String × Methylome),
        client_get_levels (Backend.localDir t) gi names ivs
          = client_get_levels (Backend.remoteServer t) gi names ivs) := by
  unfold client_get_levels at h
  cases hq : make_query gi ivs with
  | error e =>
      rw [hq] at h
      simp at h
  | ok q =>
      rw [hq] at h
      cases hr : resolveStores b names with
      | error e =>
          rw [hr] at h
          simp at h
      | ok stores =>
          rw [hr] at h
          simp at h
          have hql := mapE_ok_length (queryOne gi) ivs q hq
          have hsl := mapE_ok_length _ names stores hr
          refine ⟨?_, ?_, ⟨q, stores, rfl, rfl, h.symm, hql, hsl, ?_⟩, ?_⟩
          · rw [← h]
            simp [get_levels, hql]
          · intro row hrow
            rw [← h] at hrow
            simp [get_levels] at hrow
            obtain ⟨r1, r2, hmemq, hrow2⟩ := hrow
            rw [← hrow2]
            simp [hsl]
          · intro i iv hiv
            exact mapE_ok_get (queryOne gi) ivs q hq i iv hiv
          · intro t
            rfl

/-- Witness for C7: one interval against one methylome on a local backend. -/
theorem client_levels_shape_and_backend_witness :
    ([[((3 : Nat), (3 : Nat))]].length
        = [GenomicInterval.mk "chr1" 100 200].length)
    ∧ (∀ row ∈ [[((3 : Nat), (3 : Nat))]], row.length = ["m1"].length)
    ∧ (∃ q stores,
        make_query scenarioIndex [GenomicInterval.mk "chr1" 100 200] = Except.ok q
        ∧ resolveStores (Backend.localDir [("m1", meth4)]) ["m1"] = Except.ok stores
        ∧ [[((3 : Nat), (3 : Nat))]] = get_levels q stores
        ∧ q.length = [GenomicInterval.mk "chr1" 100 200].length
        ∧ stores.length = ["m1"].length
        ∧ ∀ (i : Nat) (iv : GenomicInterval),
            [GenomicInterval.mk "chr1" 100 200][i]? = some iv →
            ∃ r, q[i]? = some r ∧ queryOne scenarioIndex iv = Except.ok r)
    ∧ (∀ t : List (String × Methylome),
        client_get_levels (Backend.localDir t) scenarioIndex ["m1"]
            [GenomicInterval.mk "chr1" 100 200]
          = client_get_levels (Backend.remoteServer t) scenarioIndex ["m1"]
              [GenomicInterval.mk "chr1" 100 200]) :=
  client_levels_shape_and_backend (Backend.localDir [("m1", meth4)]) scenarioIndex
    ["m1"] [GenomicInterval.mk "chr1" 100 200] [[(3, 3)]] rfl

/-- Unfolding the bin loop when it yields a bin. -/
theorem binsFrom_pos (b S s : Nat) (hb : 0 < b) (hs : s < S) :
    binsFrom b S s = (s, min (s + b) S) :: binsFrom b S (min (s + b) S) := by
  rw [binsFrom.eq_def]
  rw [dif_pos ⟨hb, hs⟩]

/-- Unfolding the bin loop when it stops. -/
theorem binsFrom_neg (b S s : Nat) (h : ¬ (0 < b ∧ s < S)) :
    binsFrom b S s = [] := by
  unfold binsFrom
  rw [dif_neg h]

/-- The bin loop started at a multiple of the bin size yields exactly the
remaining bins in closed form. -/
theorem binsFrom_closed (b S : Nat) (hb : 0 < b) :
    ∀ n k, S - k * b ≤ n →
      binsFrom b S (k * b)
        = (List.range ((S - k * b + b - 1) / b)).map
            (fun j => ((k + j) * b, min ((k + j + 1) * b) S)) := by
  intro n
  induction n with
  | zero =>
      intro k hk
      rw [binsFrom_neg b S (k * b) (fun hh => absurd hh.2 (by omega))]
      have h0 : S - k * b = 0 := by omega
      rw [h0]
      have h1 : (0 + b - 1) / b = 0 := Nat.div_eq_of_lt (by omega)
      rw [h1]
      simp
  | succ n ih =>
      intro k hk
      by_cases hlt : k * b < S
      · rw [binsFrom_pos b S (k * b) hb hlt]
        have hkb1 : (k + 1) * b = k * b + b := by ring
        by_cases h2 : k * b + b < S
        · have hmin : min (k * b + b) S = k * b + b :=
            Nat.min_eq_left (Nat.le_of_lt h2)
          rw [hmin]
          have hrec := ih (k + 1) (by omega)
          rw [hkb1] at hrec
          rw [hrec]
          have hcount : (S - k * b + b - 1) / b = (S - (k * b + b) + b - 1) / b + 1 := by
            have h4 : S - k * b + b - 1 = (S - (k * b + b) + b - 1) + b := by omega
            rw [h4, Nat.add_div_right _ hb]
          rw [hcount, List.range_succ_eq_map]
          simp only [List.map_cons, List.map_map]
          have hhead : ((k : Nat) * b, k * b + b)
              = ((k + 0) * b, min ((k + 0 + 1) * b) S) := by
            have : (k + 0 + 1) * b = k * b + b := by ring
            rw [this]
            have : min (k * b + b) S = k * b + b := Nat.min_eq_left (Nat.le_of_lt h2)
            rw [this]
            simp
          rw [hhead]
          have htail :
              (fun j => ((k + 1 + j) * b, min ((k + 1 + j + 1) * b) S))
                = ((fun j => ((k + j) * b, min ((k + j + 1) * b) S)) ∘ Nat.succ) := by
            funext j
            simp only [Function.comp, Nat.succ_eq_add_one]
            have e1 : k + 1 + j = k + (j + 1) := by omega
            rw [e1]
          rw [htail]
        · have hmin : min (k * b + b) S = S := Nat.min_eq_right (by omega)
          rw [hmin]
          rw [binsFrom_neg b S S (fun hh => absurd hh.2 (by omega))]
          have hcount : (S - k * b + b - 1) / b = 1 := by
            apply Nat.div_eq_of_lt_le
            · have : 1 * b = b := by ring
              omega
            · have : (1 + 1) * b = b + b := by ring
              omega
          rw [hcount]
          have : List.range 1 = [0] := by rfl
          rw [this]
          simp only [List.map_cons, List.map_nil]
          have : (k + 0 + 1) * b = k * b + b := by ring
          rw [this]
          have : min (k * b + b) S = S := Nat.min_eq_right (by omega)
          rw [this]
          simp
      · rw [binsFrom_neg b S (k * b) (fun hh => absurd hh.2 (by omega))]
        have h0 : S - k * b = 0 := by omega
        rw [h0]
        have h1 : (0 + b - 1) / b = 0 := Nat.div_eq_of_lt (by omega)
        rw [h1]
        simp

/-- The bin loop from zero in closed form: one bin per k with k below the
ceiling of S over b, clipped at S. -/
theorem chromBins_closed (b S : Nat) (hb : 0 < b) :
    binsFrom b S 0
      = (List.range ((S + b - 1) / b)).map
          (fun k => (k * b, min ((k + 1) * b) S)) := by
  have h := binsFrom_closed b S hb S 0 (by omega)
  simp only [Nat.zero_mul, Nat.zero_add, Nat.sub_zero] at h
  exact h

/-- Claim C3: for a positive bin size, generate_bins yields exactly, per
chromosome in index order, the triples (chrom, k·b, min ((k+1)·b) size)
for k ranging over the ceiling of size over b — half-open consecutive bins
from zero with the last clipped to the chromosome length; the range bound
is exactly the condition k·b < size. -/
theorem generate_bins_exact_form (gi : GenomeIndex) (b : Nat) (hb : 1 ≤ b) :
    generate_bins gi b
      = gi.chroms.flatMap (fun c =>
          (List.range ((c.size + b - 1) / b)).map
            (fun k => (c.name, k * b, min ((k + 1) * b) c.size)))
    ∧ ∀ S k : Nat, k < (S + b - 1) / b ↔ k * b < S := by
  constructor
  · unfold generate_bins chromNamesSizes
    rw [List.flatMap_map]
    refine List.flatMap_congr ?_
    intro c hc
    rw [chromBins_closed b c.size hb, List.map_map]
    rfl
  · intro S k
    have hkb1 : (k + 1) * b = k * b + b := by ring
    constructor
    · intro h
      have h2 : (k + 1) * b ≤ S + b - 1 := (Nat.le_div_iff_mul_le hb).mp h
      omega
    · intro h
      have h2 : (k + 1) * b ≤ S + b - 1 := by omega
      exact (Nat.le_div_iff_mul_le hb).mpr h2

/-- Witness for C3: bins of size 100 over the scenario index. -/
theorem generate_bins_exact_form_witness :
    generate_bins scenarioIndex 100
      = scenarioIndex.chroms.flatMap (fun c =>
          (List.range ((c.size + 100 - 1) / 100)).map
            (fun k => (c.name, k * 100, min ((k + 1) * 100) c.size)))
    ∧ ∀ S k : Nat, k < (S + 100 - 1) / 100 ↔ k * 100 < S :=
  generate_bins_exact_form scenarioIndex 100 (by decide)

/-- With a positive bin size, enough fuel makes the fueled bin loop agree
with the total one. -/
theorem binsFromFuel_some (b S : Nat) (hb : 0 < b) :
    ∀ fuel s, S - s < fuel → binsFromFuel b S s fuel = some (binsFrom b S s) := by
  intro fuel
  induction fuel with
  | zero =>
      intro s h
      omega
  | succ n ih =>
      intro s h
      unfold binsFromFuel
      by_cases hs : s < S
      · rw [if_pos hs]
        rw [ih (min (s + b) S) (by omega)]
        rw [binsFrom_pos b S s hb hs]
      · rw [if_neg hs]
        rw [binsFrom_neg b S s (fun hh => hs hh.2)]

/-- With bin size zero the loop never advances: no amount of fuel finishes
it on a nonempty chromosome. -/
theorem binsFromFuel_none (S : Nat) :
    ∀ fuel s, s < S → binsFromFuel 0 S s fuel = none := by
  intro fuel
  induction fuel with
  | zero =>
      intro s h
      rfl
  | succ n ih =>
      intro s h
      unfold binsFromFuel
      rw [if_pos h]
      have hm : min (s + 0) S = s := by omega
      rw [hm, ih s h]

/-- The length of a flatMap is the sum of the lengths of its pieces. -/
theorem length_flatMap_eq {α β : Type} (f : α → List β) :
    ∀ l : List α, (l.flatMap f).length = (l.map (fun a => (f a).length)).sum := by
  intro l
  induction l with
  | nil => rfl
  | cons a rest ih => simp [List.flatMap_cons, ih]

/-- Claim C10: with bin size at least 1 the generate_bins loop terminates —
the fueled loop finishes within size+1 iterations and yields the ceiling
of size over bin size many bins per chromosome — while with bin size 0 it
never finishes on a nonempty chromosome, so the positivity precondition is
required. -/
theorem generate_bins_terminates (b S : Nat) (gi : GenomeIndex) :
    (1 ≤ b →
      binsFromFuel b S 0 (S + 1) = some (binsFrom b S 0)
      ∧ (binsFrom b S 0).length = (S + b - 1) / b
      ∧ (generate_bins gi b).length
          = (gi.chroms.map (fun c => (c.size + b - 1) / b)).sum)
    ∧ (0 < S → ∀ fuel, binsFromFuel 0 S 0 fuel = none) := by
  constructor
  · intro hb
    refine ⟨binsFromFuel_some b S hb (S + 1) 0 (by omega), ?_, ?_⟩
    · rw [chromBins_closed b S hb]
      simp
    · unfold generate_bins chromNamesSizes
      rw [List.flatMap_map, length_flatMap_eq]
      refine congrArg List.sum (List.map_congr_left ?_)
      intro c hc
      simp [chromBins_closed b c.size hb]
  · intro hS fuel
    exact binsFromFuel_none S fuel 0 hS

/-- Witness for C10 with bin size 2 on a chromosome of size 5 and the
scenario index, and the divergence of bin size 0 on size 5. -/
theorem generate_bins_terminates_witness :
    binsFromFuel 2 5 0 6 = some (binsFrom 2 5 0)
    ∧ (binsFrom 2 5 0).length = (5 + 2 - 1) / 2
    ∧ (generate_bins scenarioIndex 2).length
        = (scenarioIndex.chroms.map (fun c => (c.size + 2 - 1) / 2)).sum
    ∧ ∀ fuel, binsFromFuel 0 5 0 fuel = none := by
  have h1 := (generate_bins_terminates 2 5 scenarioIndex).1 (by decide)
  have h2 := (generate_bins_terminates 2 5 scenarioIndex).2 (by decide)
  exact ⟨h1.1, h1.2.1, h1.2.2, h2⟩

end Transferase
